import Mathlib

/-!
Formal model of `nds_power.py` (NDS power-run benchmark driver).

Strings are embedded as `List Char`; the Python string operations used by the
source (`str.split` on a non-empty separator, `str.replace`, `str.find`,
substring containment via `in`, and slicing with possibly negative bounds) are
modelled by executable functions below.  Fallible operations (Python list
indexing that can raise `IndexError`) are modelled with `Option`.

The orchestrator `run_query_stream` is modelled as a pure function over an
environment `Env` supplying the session/application id, the wall clock as a
function from the index of the `time.time()` call to an integer reading, and
the outcomes of the fallible external steps (registering a table's parquet
data as a temp view, analysing a SQL string, collecting a result, saving a
result).  The function returns `Except`: `Except.ok w` means the run completed
and performed exactly one write of the timing log described by `w`;
`Except.error e` means the run aborted with error `e` before the timing-log
write (the write is the very last step of the source function).
-/

/-- Characters of a Python string. -/
abbrev Str := List Char

/-- Character list of a Lean string literal. -/
def lit (s : String) : Str := s.data

/-- Index of the first occurrence of `pat` in `s` (Python `s.find(pat)` when
the result is non-negative, `none` when Python returns `-1`). -/
def findSub (pat : Str) : Str → Option Nat
  | [] => if pat.isPrefixOf [] then some 0 else none
  | c :: t =>
    if pat.isPrefixOf (c :: t) then some 0
    else (findSub pat t).map (fun n => n + 1)

/-- Python `pat in s`. -/
def containsSub (s pat : Str) : Bool := (findSub pat s).isSome

/-- Python `s.find(pat)` (with `-1` for absence). -/
def pyFind (s pat : Str) : Int :=
  match findSub pat s with
  | some i => (i : Int)
  | none => -1

/-- Python slice `s[a:b]`: negative indices count from the end, then both
bounds are clamped to `[0, len(s)]` and an empty slice results when the lower
bound is not below the upper one. -/
def pySlice (s : Str) (a b : Int) : Str :=
  let n : Int := (s.length : Int)
  let a2 : Int := if a < 0 then max (n + a) 0 else min a n
  let b2 : Int := if b < 0 then max (n + b) 0 else min b n
  (s.take b2.toNat).drop a2.toNat

/-- Fuel-driven worker for `splitSep`; `fuel = s.length` always suffices for a
non-empty separator because every step consumes at least one character. -/
def splitSepF (sep : Str) : Nat → Str → List Str
  | 0, s => [s]
  | fuel + 1, s =>
    match findSub sep s with
    | none => [s]
    | some i => s.take i :: splitSepF sep fuel (s.drop (i + sep.length))

/-- Python `s.split(sep)` for a non-empty separator `sep` (Python raises
`ValueError` on an empty separator; the source only ever splits on the
non-empty literals `"-- start"`, `";"` and `"\n"`). -/
def splitSep (sep s : Str) : List Str := splitSepF sep s.length s

/-- Python `s.replace(old, new)` for non-empty `old`; identical to Python's
`new.join(s.split(old))`. -/
def replaceSub (s old new : Str) : Str := List.intercalate new (splitSep old s)

/-- Python `s.split('\n')[0]`: the first line of `s` (the whole of `s` when it
has no newline). -/
def firstLine (s : Str) : Str := (splitSep (lit "\n") s).headD []

/-- Condition under which `gen_sql_from_stream` splits a block: the second
semicolon-delimited segment contains `select` (`False` when the block has no
second segment, in which case the source raises instead). -/
def splitCondition (q : Str) : Bool :=
  match (splitSep (lit ";") q).get? 1 with
  | none => false
  | some seg1 => containsSub seg1 (lit "select")

/-- Body of the per-block loop of `gen_sql_from_stream` (nds_power.py lines
57-73).  `none` models the `IndexError` raised by `q.split(';')[1]` when the
block contains no semicolon. -/
def processBlock (q : Str) : Option (List Str) :=
  let split_q := splitSep (lit ";") q
  match split_q.get? 1 with
  | none => none
  | some seg1 =>
    if containsSub seg1 (lit "select") then
      let part_1 := replaceSub (split_q.headD []) (lit ".tpl") (lit "_part1.tpl") ++ lit ";"
      let head := firstLine (split_q.headD [])
      let part_2 := replaceSub head (lit ".tpl") (lit "_part2.tpl") ++ lit "\n" ++ seg1 ++ lit ";"
      some [part_1, part_2]
    else
      some [q]

/-- The whole per-block loop: units of every block, concatenated in block
order, aborting (as the Python loop does) on the first failing block. -/
def processBlocks : List Str → Option (List Str)
  | [] => some []
  | q :: qs =>
    match processBlock q with
    | none => none
    | some us =>
      match processBlocks qs with
      | none => none
      | some rest => some (us ++ rest)

/-- `gen_sql_from_stream` (nds_power.py lines 43-77) applied to the text of
the stream file: split on the start marker, drop the preamble, process each
block, and re-attach the marker to every emitted unit. -/
def gen_sql_from_stream (stream : Str) : Option (List Str) :=
  match processBlocks ((splitSep (lit "-- start") stream).tail) with
  | none => none
  | some extended => some (extended.map (fun q => lit "-- start" ++ q))

/-- Query display name used by `run_query_stream` (nds_power.py line 126):
`q[q.find('template')+9 : q.find('.tpl')]`. -/
def query_name (q : Str) : Str :=
  pySlice q (pyFind q (lit "template") + 9) (pyFind q (lit ".tpl"))

/-- One row of the in-memory timing record: `(spark_app_id, label, elapsed)`.
Elapsed wall-clock seconds are modelled as integers (e.g. the timestamp in
microseconds): the claims under study are structural, none hinges on
floating-point behaviour. -/
abbrev Entry := Str × Str × ℤ

/-- The single CSV write performed at the end of a successful run: the
destination path, the header row, and one data row per timing entry. -/
structure LogWrite where
  path : Str
  header : List Str
  entries : List Entry
deriving DecidableEq

/-- Environment of one orchestrator run: the session/application id captured
once at session creation, the wall clock indexed by the ordinal of the
`time.time()` call, and the outcomes of the four fallible external steps
(`spark_session.read.parquet(path).createOrReplaceTempView(name)`,
`spark_session.sql(q)`, `df.collect()`, and
`df.write.format(fmt).mode('overwrite').save(dest)`). -/
structure Env where
  appId : Str
  clock : Nat → ℤ
  register : Str → Str → Except String Unit
  sql : Str → Except String Unit
  collect : Str → Except String Unit
  save : Str → Str → Str → Except String Unit

/-- Table-registration loop of `run_query_stream` (nds_power.py lines
107-116), started with clock index `k`: each table consumes two clock
readings (start and end) around its fallible registration and contributes one
`CreateTempView <table>` entry; the loop aborts on the first failure.
Returns the entries together with the next clock index. -/
def registerTables (env : Env) ( input_prefix : Str) :
    List Str → Nat → Except String (List Entry × Nat)
  | [], k => Except.ok ([], k)
  | t :: ts, k =>
    let table_path := input_prefix ++ lit "/" ++ t
    match env.register table_path t with
    | Except.error e => Except.error e
    | Except.ok _ =>
      match registerTables env input_prefix ts (k + 2) with
      | Except.error e => Except.error e
      | Except.ok (rest, k2) =>
        Except.ok ((env.appId, lit "CreateTempView " ++ t,
          env.clock (k + 1) - env.clock k) :: rest, k2)

/-- The timed body of one query iteration (nds_power.py lines 131-135):
`df.collect()` when no output path was supplied (Python's falsy test also
treats an empty output prefix as absent), otherwise a save of the result to
`output_path + '/' + query_name` in the requested format. -/
def execStep (env : Env) (output_path : Option Str) (output_format : Str)
    (q : Str) : Except String Unit :=
  match output_path with
  | none => env.collect q
  | some op =>
    if op = [] then env.collect q
    else env.save q (op ++ lit "/" ++ query_name q) output_format

/-- Query loop of `run_query_stream` (nds_power.py lines 123-139), started
with clock index `k`: per query, the fallible `spark_session.sql` analysis
(outside the timed section), then two clock readings around the fallible
collect/save step, and one entry labelled with the extracted query name; the
loop aborts on the first failure. -/
def runQueries (env : Env) (output_path : Option Str) (output_format : Str) :
    List Str → Nat → Except String (List Entry × Nat)
  | [], k => Except.ok ([], k)
  | q :: qs, k =>
    match env.sql q with
    | Except.error e => Except.error e
    | Except.ok _ =>
      match execStep env output_path output_format q with
      | Except.error e => Except.error e
      | Except.ok _ =>
        match runQueries env output_path output_format qs (k + 2) with
        | Except.error e => Except.error e
        | Except.ok (rest, k2) =>
          Except.ok ((env.appId, query_name q,
            env.clock (k + 1) - env.clock k) :: rest, k2)

/-- `run_query_stream` (nds_power.py lines 80-155).  Clock readings, in
source order: index 0 is `total_time_start` (line 99), index 1 is
`load_start` (line 106), two readings per table, then `load_end` (line 117),
`power_start` (line 122), two readings per query, and finally
`total_time_end` (line 140).  On success the returned `LogWrite` is the
single CSV write of lines 150-155 (header row plus the accumulated
`execution_time_list`); any failing step aborts the whole run with that
step's error, before any write. -/
def run_query_stream (env : Env) (tables : List Str) ( input_prefix : Str)
    (query_list : List Str) (time_log_output_path : Str)
    (output_path : Option Str) (output_format : Str) :
    Except String LogWrite :=
  let total_time_start := env.clock 0
  let load_start := env.clock 1
  match registerTables env input_prefix tables 2 with
  | Except.error e => Except.error e
  | Except.ok (tableEntries, k1) =>
    let load_end := env.clock k1
    let load_elapse := load_end - load_start
    let power_start := env.clock (k1 + 1)
    match runQueries env output_path output_format query_list (k1 + 2) with
    | Except.error e => Except.error e
    | Except.ok (queryEntries, k2) =>
      let total_time_end := env.clock k2
      let power_elapse := total_time_end - power_start
      let total_elapse := total_time_end - total_time_start
      Except.ok
        { path := time_log_output_path
          header := [lit "application_id", lit "query", lit "time/s"]
          entries := tableEntries
            ++ [(env.appId, lit "Load Time", load_elapse)]
            ++ queryEntries
            ++ [(env.appId, lit "Power Test Time", power_elapse),
                (env.appId, lit "Total Time", total_elapse)] }

/-- Whether the model run performed its timing-log write: exactly the
successful outcomes. -/
def writePerformed (r : Except String LogWrite) : Bool :=
  match r with
  | Except.ok _ => true
  | Except.error _ => false

/-- All table registrations of the run succeed. -/
abbrev registersOk (env : Env) ( input_prefix : Str) (tables : List Str) : Prop :=
  ∀ t ∈ tables, env.register ( input_prefix ++ lit "/" ++ t) t = Except.ok ()

/-- Both fallible steps of one query iteration succeed. -/
abbrev queryOk (env : Env) (output_path : Option Str) (output_format : Str)
    (q : Str) : Prop :=
  env.sql q = Except.ok () ∧ execStep env output_path output_format q = Except.ok ()

/-- One query iteration fails with error `e`: either the `sql` analysis step
raises, or it succeeds and the timed collect/save step raises. -/
def queryFails (env : Env) (output_path : Option Str) (output_format : Str)
    (q : Str) (e : String) : Prop :=
  env.sql q = Except.error e ∨
    (env.sql q = Except.ok () ∧
      execStep env output_path output_format q = Except.error e)

/-- The clock of an environment never runs backwards between consecutive
readings. -/
def clockMono (env : Env) : Prop := ∀ n, env.clock n ≤ env.clock (n + 1)

/-- Formalisation of claim C3's own wording (to be compared with
`processBlock`): the claim describes the second emitted unit as "the block's
first line" with `.tpl` rewritten to `_part2.tpl`, "followed by the second
semicolon-delimited segment and a terminating semicolon", with the start
marker prefixed.  Note the two points where this differs from the source: the
source takes the first line of the block's FIRST SEMICOLON SEGMENT (not of
the whole block), and joins it to the second segment with an explicit
newline. -/
def c3ClaimedUnits (q : Str) : Option (List Str) :=
  match splitSep (lit ";") q with
  | seg0 :: seg1 :: _ =>
    if containsSub seg1 (lit "select") then
      some [lit "-- start" ++ replaceSub seg0 (lit ".tpl") (lit "_part1.tpl") ++ lit ";",
            lit "-- start" ++ replaceSub (firstLine q) (lit ".tpl") (lit "_part2.tpl")
              ++ seg1 ++ lit ";"]
    else none
  | _ => none

/-- Formalisation of claim C10's own wording (to be compared with
`query_name`): the text strictly between the end of the first occurrence of
`'template '` (with trailing space, 9 characters long) and the start of the
first occurrence of `'.tpl'`.  The source instead offsets from the first
occurrence of `'template'` WITHOUT the space. -/
def c10ClaimedName (q : Str) : Option Str :=
  match findSub (lit "template ") q, findSub (lit ".tpl") q with
  | some i, some j => some ((q.take j).drop (i + 9))
  | _, _ => none

deriving instance DecidableEq for Except

/-- Environment in which every external step succeeds and the clock advances
by exactly one unit per reading. -/
def envTick : Env :=
  { appId := lit "app-1"
    clock := fun n => (n : ℤ)
    register := fun _ _ => Except.ok ()
    sql := fun _ => Except.ok ()
    collect := fun _ => Except.ok ()
    save := fun _ _ _ => Except.ok () }

/-- Environment in which analysing the SQL text `q2` raises an engine error
and every other step succeeds. -/
def envSqlBoom : Env :=
  { appId := lit "app-1"
    clock := fun _ => 0
    register := fun _ _ => Except.ok ()
    sql := fun q => if q = lit "q2" then Except.error "boom" else Except.ok ()
    collect := fun _ => Except.ok ()
    save := fun _ _ _ => Except.ok () }

/-! ### Lemmas about the string primitives -/

lemma isPrefixOf_length_le : ∀ (p s : Str), p.isPrefixOf s = true → p.length ≤ s.length
  | [], s, _ => Nat.zero_le _
  | a :: as, [], h => by simp [List.isPrefixOf] at h
  | a :: as, b :: bs, h => by
    simp only [List.isPrefixOf, Bool.and_eq_true, beq_iff_eq] at h
    exact Nat.succ_le_succ (isPrefixOf_length_le as bs h.2)

lemma isPrefixOf_nil {p : Str} (h : p.isPrefixOf ([] : Str) = true) : p = [] := by
  cases p with
  | nil => rfl
  | cons a as => simp [List.isPrefixOf] at h

lemma findSub_nil {sep : Str} (hsep : sep ≠ []) : findSub sep [] = none := by
  simp only [findSub]
  rw [if_neg]
  intro h
  exact hsep (isPrefixOf_nil h)

lemma findSub_bound {pat : Str} : ∀ {s : Str} {i : Nat},
    findSub pat s = some i → i + pat.length ≤ s.length := by
  intro s
  induction s with
  | nil =>
    intro i h
    simp only [findSub] at h
    by_cases hp : pat.isPrefixOf ([] : Str) = true
    · rw [if_pos hp] at h
      cases h
      simpa using isPrefixOf_length_le pat [] hp
    · rw [if_neg hp] at h
      cases h
  | cons c t ih =>
    intro i h
    simp only [findSub] at h
    by_cases hp : pat.isPrefixOf (c :: t) = true
    · rw [if_pos hp] at h
      cases h
      simpa using isPrefixOf_length_le pat (c :: t) hp
    · rw [if_neg hp] at h
      obtain ⟨j, hj, rfl⟩ := Option.map_eq_some'.mp h
      have := ih hj
      simp only [List.length_cons]
      omega

lemma splitSepF_ne_nil (sep : Str) : ∀ (f : Nat) (s : Str), splitSepF sep f s ≠ []
  | 0, s => by simp [splitSepF]
  | f + 1, s => by
    simp only [splitSepF]
    cases hf : findSub sep s with
    | none => simp
    | some i => simp

lemma splitSepF_congr {sep : Str} (hsep : sep ≠ []) :
    ∀ (f1 f2 : Nat) (s : Str), s.length ≤ f1 → s.length ≤ f2 →
      splitSepF sep f1 s = splitSepF sep f2 s := by
  intro f1
  induction f1 with
  | zero =>
    intro f2 s h1 h2
    have hs : s = [] := List.length_eq_zero.mp (Nat.le_zero.mp h1)
    subst hs
    cases f2 with
    | zero => rfl
    | succ b =>
      simp only [splitSepF]
      rw [findSub_nil hsep]
  | succ a ih =>
    intro f2 s h1 h2
    cases f2 with
    | zero =>
      have hs : s = [] := List.length_eq_zero.mp (Nat.le_zero.mp h2)
      subst hs
      simp only [splitSepF]
      rw [findSub_nil hsep]
    | succ b =>
      simp only [splitSepF]
      cases hf : findSub sep s with
      | none => rfl
      | some i =>
        have hb := findSub_bound hf
        have hslen : 1 ≤ s.length := by
          cases s with
          | nil => rw [findSub_nil hsep] at hf; cases hf
          | cons c t => simp
        have hseplen : 1 ≤ sep.length := by
          cases sep with
          | nil => exact absurd rfl hsep
          | cons c t => simp
        have hd1 : (s.drop (i + sep.length)).length ≤ a := by
          rw [List.length_drop]; omega
        have hd2 : (s.drop (i + sep.length)).length ≤ b := by
          rw [List.length_drop]; omega
        dsimp only
        rw [ih b (s.drop (i + sep.length)) hd1 hd2]

lemma splitSep_of_none {sep s : Str} (h : findSub sep s = none) :
    splitSep sep s = [s] := by
  unfold splitSep
  cases hl : s.length with
  | zero => simp [splitSepF]
  | succ m => simp [splitSepF, h]

lemma splitSep_of_some {sep s : Str} {i : Nat} (hsep : sep ≠ [])
    (h : findSub sep s = some i) :
    splitSep sep s = s.take i :: splitSep sep (s.drop (i + sep.length)) := by
  have hslen : 1 ≤ s.length := by
    cases s with
    | nil => rw [findSub_nil hsep] at h; cases h
    | cons c t => simp
  obtain ⟨m, hm⟩ : ∃ m, s.length = m + 1 := ⟨s.length - 1, by omega⟩
  have hb := findSub_bound h
  have hseplen : 1 ≤ sep.length := by
    cases sep with
    | nil => exact absurd rfl hsep
    | cons c t => simp
  unfold splitSep
  rw [hm]
  simp only [splitSepF, h]
  congr 1
  apply splitSepF_congr hsep
  · rw [List.length_drop]; omega
  · exact Nat.le_refl _

lemma splitSep_ne_nil {sep s : Str} : splitSep sep s ≠ [] :=
  splitSepF_ne_nil sep s.length s

lemma two_le_splitSep_length {sep s : Str} (hsep : sep ≠ [])
    (h : containsSub s sep = true) : 2 ≤ (splitSep sep s).length := by
  unfold containsSub at h
  obtain ⟨i, hi⟩ := Option.isSome_iff_exists.mp h
  rw [splitSep_of_some hsep hi]
  have hne : splitSep sep (s.drop (i + sep.length)) ≠ [] := splitSep_ne_nil
  have hlen : 1 ≤ (splitSep sep (s.drop (i + sep.length))).length :=
    List.length_pos.mpr hne
  simp only [List.length_cons]
  omega

lemma splitSep_get1_isSome {sep s : Str} (hsep : sep ≠ [])
    (h : containsSub s sep = true) : ((splitSep sep s).get? 1).isSome = true := by
  have := two_le_splitSep_length hsep h
  rw [Option.isSome_iff_exists]
  cases hg : (splitSep sep s).get? 1 with
  | none =>
    rw [List.get?_eq_none] at hg
    omega
  | some x => exact ⟨x, rfl⟩

/-! ### Lemmas about the stream splitter -/

lemma processBlock_eq_of_split {q seg0 seg1 : Str} {rest : List Str}
    (hs : splitSep (lit ";") q = seg0 :: seg1 :: rest) :
    processBlock q =
      (if containsSub seg1 (lit "select") then
        some [replaceSub seg0 (lit ".tpl") (lit "_part1.tpl") ++ lit ";",
              replaceSub (firstLine seg0) (lit ".tpl") (lit "_part2.tpl")
                ++ lit "\n" ++ seg1 ++ lit ";"]
      else some [q]) := by
  unfold processBlock
  rw [hs]
  simp [List.get?]

lemma splitCondition_of_split {q seg0 seg1 : Str} {rest : List Str}
    (hs : splitSep (lit ";") q = seg0 :: seg1 :: rest) :
    splitCondition q = containsSub seg1 (lit "select") := by
  unfold splitCondition
  rw [hs]
  rfl

lemma processBlock_some_split {q : Str} {us : List Str}
    (h : processBlock q = some us) :
    ∃ seg0 seg1 rest, splitSep (lit ";") q = seg0 :: seg1 :: rest := by
  unfold processBlock at h
  cases hs : splitSep (lit ";") q with
  | nil => exact absurd hs splitSep_ne_nil
  | cons a l =>
    cases l with
    | nil =>
      rw [hs] at h
      simp [List.get?] at h
    | cons b l2 => exact ⟨a, b, l2, rfl⟩

lemma processBlock_length {q : Str} {us : List Str}
    (h : processBlock q = some us) :
    us.length = (if splitCondition q then 2 else 1) := by
  obtain ⟨seg0, seg1, rest, hs⟩ := processBlock_some_split h
  rw [processBlock_eq_of_split hs] at h
  rw [splitCondition_of_split hs]
  by_cases hc : containsSub seg1 (lit "select") = true
  · rw [if_pos hc] at h ⊢
    cases h
    rfl
  · rw [if_neg hc] at h
    rw [if_neg hc]
    cases h
    rfl

lemma processBlocks_struct : ∀ {bs ex : List Str},
    processBlocks bs = some ex →
    ∃ uss : List (List Str), ex = uss.flatten ∧ uss.length = bs.length ∧
      ∀ i b, bs.get? i = some b →
        ∃ us, processBlock b = some us ∧ uss.get? i = some us := by
  intro bs
  induction bs with
  | nil =>
    intro ex h
    simp only [processBlocks] at h
    cases h
    exact ⟨[], by simp, by simp, fun i b hb => by simp [List.get?] at hb⟩
  | cons q qs ih =>
    intro ex h
    simp only [processBlocks] at h
    cases hq : processBlock q with
    | none => rw [hq] at h; cases h
    | some us =>
      rw [hq] at h
      cases hqs : processBlocks qs with
      | none => rw [hqs] at h; cases h
      | some rest =>
        rw [hqs] at h
        cases h
        obtain ⟨uss0, hex, hlen, hidx⟩ := ih hqs
        refine ⟨us :: uss0, by simp [hex], by simp [hlen], ?_⟩
        intro i b hb
        cases i with
        | zero =>
          simp only [List.get?] at hb
          cases hb
          exact ⟨us, hq, rfl⟩
        | succ j =>
          simp only [List.get?] at hb ⊢
          exact hidx j b hb

/-! ### Lemmas about the orchestrator -/

lemma registerTables_ok {env : Env} {p : Str} :
    ∀ (ts : List Str) (k : Nat), registersOk env p ts →
    ∃ es k2, registerTables env p ts k = Except.ok (es, k2) ∧
      k2 = k + 2 * ts.length ∧
      es.length = ts.length ∧
      es.map (fun r => r.2.1) = ts.map (fun t => lit "CreateTempView " ++ t) ∧
      ∀ r ∈ es, r.1 = env.appId ∧ ∃ m, r.2.2 = env.clock (m + 1) - env.clock m := by
  intro ts
  induction ts with
  | nil =>
    intro k hok
    exact ⟨[], k, rfl, by simp, rfl, rfl, by simp⟩
  | cons t ts ih =>
    intro k hok
    have ht : env.register (p ++ lit "/" ++ t) t = Except.ok () :=
      hok t (by simp)
    obtain ⟨es, k2, heq, hk2, hlen, hmap, hmem⟩ :=
      ih (k + 2) (fun x hx => hok x (by simp [hx]))
    refine ⟨(env.appId, lit "CreateTempView " ++ t,
        env.clock (k + 1) - env.clock k) :: es, k2, ?_, by simp [hk2]; omega,
        by simp [hlen], by simp [hmap], ?_⟩
    · simp only [registerTables]
      rw [ht, heq]
    · intro r hr
      rcases List.mem_cons.mp hr with hr0 | hrs
      · subst hr0
        exact ⟨rfl, k, rfl⟩
      · exact hmem r hrs

lemma registerTables_error {env : Env} {p : Str} :
    ∀ (ts1 : List Str) (t : Str) (ts2 : List Str) (k : Nat) (e : String),
      registersOk env p ts1 →
      env.register (p ++ lit "/" ++ t) t = Except.error e →
      registerTables env p (ts1 ++ t :: ts2) k = Except.error e := by
  intro ts1
  induction ts1 with
  | nil =>
    intro t ts2 k e _ herr
    simp only [List.nil_append, registerTables]
    rw [herr]
  | cons a as ih =>
    intro t ts2 k e hok herr
    have ha : env.register (p ++ lit "/" ++ a) a = Except.ok () :=
      hok a (by simp)
    have hrec := ih t ts2 (k + 2) e (fun x hx => hok x (by simp [hx])) herr
    simp only [List.cons_append, registerTables]
    rw [ha]
    simp only [List.append_eq] at hrec ⊢
    rw [hrec]

lemma runQueries_ok {env : Env} {op : Option Str} {fmt : Str} :
    ∀ (qs : List Str) (k : Nat), (∀ q ∈ qs, queryOk env op fmt q) →
    ∃ es k2, runQueries env op fmt qs k = Except.ok (es, k2) ∧
      k2 = k + 2 * qs.length ∧
      es.length = qs.length ∧
      es.map (fun r => r.2.1) = qs.map query_name ∧
      ∀ r ∈ es, r.1 = env.appId ∧ ∃ m, r.2.2 = env.clock (m + 1) - env.clock m := by
  intro qs
  induction qs with
  | nil =>
    intro k hok
    exact ⟨[], k, rfl, by simp, rfl, rfl, by simp⟩
  | cons q qs ih =>
    intro k hok
    obtain ⟨hsql, hexec⟩ := hok q (by simp)
    obtain ⟨es, k2, heq, hk2, hlen, hmap, hmem⟩ :=
      ih (k + 2) (fun x hx => hok x (by simp [hx]))
    refine ⟨(env.appId, query_name q,
        env.clock (k + 1) - env.clock k) :: es, k2, ?_, by simp [hk2]; omega,
        by simp [hlen], by simp [hmap], ?_⟩
    · simp only [runQueries]
      rw [hsql, hexec, heq]
    · intro r hr
      rcases List.mem_cons.mp hr with hr0 | hrs
      · subst hr0
        exact ⟨rfl, k, rfl⟩
      · exact hmem r hrs

lemma runQueries_error {env : Env} {op : Option Str} {fmt : Str} :
    ∀ (qs1 : List Str) (q : Str) (qs2 : List Str) (k : Nat) (e : String),
      (∀ x ∈ qs1, queryOk env op fmt x) →
      queryFails env op fmt q e →
      runQueries env op fmt (qs1 ++ q :: qs2) k = Except.error e := by
  intro qs1
  induction qs1 with
  | nil =>
    intro q qs2 k e _ hfail
    simp only [List.nil_append, runQueries]
    rcases hfail with hsql | ⟨hsql, hexec⟩
    · rw [hsql]
    · rw [hsql, hexec]
  | cons a as ih =>
    intro q qs2 k e hok hfail
    obtain ⟨hsql, hexec⟩ := hok a (by simp)
    have hrec := ih q qs2 (k + 2) e (fun x hx => hok x (by simp [hx])) hfail
    simp only [List.cons_append, runQueries]
    rw [hsql, hexec]
    simp only [List.append_eq] at hrec ⊢
    rw [hrec]

lemma runQueries_sum_le {env : Env} {op : Option Str} {fmt : Str}
    (hm : clockMono env) :
    ∀ (qs : List Str) (k : Nat) (es : List Entry) (k2 : Nat),
      runQueries env op fmt qs k = Except.ok (es, k2) →
      (es.map (fun r => r.2.2)).sum ≤ env.clock k2 - env.clock k ∧ k ≤ k2 := by
  have hmon : Monotone env.clock := monotone_nat_of_le_succ hm
  intro qs
  induction qs with
  | nil =>
    intro k es k2 h
    simp only [runQueries] at h
    cases h
    simp
  | cons q qs ih =>
    intro k es k2 h
    simp only [runQueries] at h
    cases hsql : env.sql q with
    | error e => rw [hsql] at h; cases h
    | ok u =>
      rw [hsql] at h
      cases hexec : execStep env op fmt q with
      | error e => rw [hexec] at h; cases h
      | ok u2 =>
        rw [hexec] at h
        cases hrec : runQueries env op fmt qs (k + 2) with
        | error e => rw [hrec] at h; cases h
        | ok pr =>
          obtain ⟨rest, k3⟩ := pr
          rw [hrec] at h
          cases h
          obtain ⟨hsum, hk⟩ := ih (k + 2) rest _ hrec
          have h12 : env.clock (k + 1) ≤ env.clock (k + 2) := hm (k + 1)
          constructor
          · simp only [List.map_cons, List.sum_cons]
            linarith
          · omega

lemma findSub_none_of_not_contains {s pat : Str}
    (h : containsSub s pat = false) : findSub pat s = none := by
  unfold containsSub at h
  cases hf : findSub pat s with
  | none => rfl
  | some i => rw [hf] at h; simp at h

lemma processBlock_isSome_of_semi {q : Str}
    (h : containsSub q (lit ";") = true) : ∃ us, processBlock q = some us := by
  have hsep : (lit ";") ≠ ([] : Str) := by decide
  obtain ⟨seg1, hseg⟩ :=
    Option.isSome_iff_exists.mp (splitSep_get1_isSome hsep h)
  simp only [processBlock]
  rw [hseg]
  dsimp only
  by_cases hc : containsSub seg1 (lit "select") = true
  · rw [if_pos hc]
    exact ⟨_, rfl⟩
  · rw [if_neg hc]
    exact ⟨_, rfl⟩

lemma processBlocks_isSome : ∀ {bs : List Str},
    (∀ b ∈ bs, containsSub b (lit ";") = true) →
    ∃ ex, processBlocks bs = some ex := by
  intro bs
  induction bs with
  | nil => intro h; exact ⟨[], rfl⟩
  | cons q qs ih =>
    intro h
    obtain ⟨us, hus⟩ := processBlock_isSome_of_semi (h q (by simp))
    obtain ⟨ex, hex⟩ := ih (fun b hb => h b (by simp [hb]))
    refine ⟨us ++ ex, ?_⟩
    simp only [processBlocks]
    rw [hus, hex]

/-! ### The claims -/

/-- C2: for every well-formed input stream (one on which `gen_sql_from_stream`
succeeds) the output preserves block order: it is the concatenation, in block
order, of per-block unit lists, where the block at index `i` of the marker
split contributes exactly its `processBlock` units with the start marker
re-attached — two units when the split condition holds, one otherwise — so no
query unit is reordered relative to its originating block. -/
theorem c2_order_preserving (s : Str) (out : List Str)
    (h : gen_sql_from_stream s = some out) :
    ∃ uss : List (List Str),
      out = uss.flatten ∧
      uss.length = ((splitSep (lit "-- start") s).tail).length ∧
      ∀ i b, ((splitSep (lit "-- start") s).tail).get? i = some b →
        ∃ us, processBlock b = some us ∧
          uss.get? i = some (us.map (fun u => lit "-- start" ++ u)) ∧
          us.length = (if splitCondition b then 2 else 1) := by
  unfold gen_sql_from_stream at h
  cases hp : processBlocks ((splitSep (lit "-- start") s).tail) with
  | none => rw [hp] at h; cases h
  | some extended =>
    rw [hp] at h
    cases h
    obtain ⟨uss0, hex, hlen, hidx⟩ := processBlocks_struct hp
    refine ⟨uss0.map (List.map (fun u => lit "-- start" ++ u)), ?_,
      by simp [hlen], ?_⟩
    · rw [hex, List.map_flatten]
    · intro i b hb
      obtain ⟨us, hus, hget⟩ := hidx i b hb
      refine ⟨us, hus, ?_, processBlock_length hus⟩
      rw [List.get?_map, hget]
      rfl

/-- C2 witness: the order-preservation conclusion instantiated on a concrete
one-block stream whose block splits in two. -/
theorem c2_order_preserving_witness :
    ∃ uss : List (List Str),
      [lit "-- start q using template query14_part1.tpl\nselect a;",
       lit "-- start q using template query14_part2.tpl\nselect b;"] = uss.flatten ∧
      uss.length = ((splitSep (lit "-- start")
        (lit "-- start q using template query14.tpl\nselect a;select b;\n-- end")).tail).length ∧
      ∀ i b, ((splitSep (lit "-- start")
          (lit "-- start q using template query14.tpl\nselect a;select b;\n-- end")).tail).get? i
            = some b →
        ∃ us, processBlock b = some us ∧
          uss.get? i = some (us.map (fun u => lit "-- start" ++ u)) ∧
          us.length = (if splitCondition b then 2 else 1) :=
  c2_order_preserving
    (lit "-- start q using template query14.tpl\nselect a;select b;\n-- end")
    [lit "-- start q using template query14_part1.tpl\nselect a;",
     lit "-- start q using template query14_part2.tpl\nselect b;"]
    (by decide)

/-- C3 counterexample: the claim describes the second emitted unit as built
from the BLOCK's first line, directly followed by the second segment.  On the
block `" q.tpl;select b\nzz"` (whose first semicolon precedes its first
newline) the source instead uses the first line of the first semicolon
segment and joins with a newline, so the emitted second unit differs from the
claim's second unit. -/
theorem c3_cex :
    gen_sql_from_stream (lit "-- start q.tpl;select b\nzz")
      = some [lit "-- start q_part1.tpl;", lit "-- start q_part2.tpl\nselect b\nzz;"] ∧
    c3ClaimedUnits (lit " q.tpl;select b\nzz")
      = some [lit "-- start q_part1.tpl;",
              lit "-- start q_part2.tpl;select bselect b\nzz;"] ∧
    (lit "-- start q_part2.tpl\nselect b\nzz;" : Str)
      ≠ lit "-- start q_part2.tpl;select bselect b\nzz;" :=
  ⟨by decide, by decide, by decide⟩

/-- C3 (amended): for a block whose second semicolon-delimited segment
contains `select`, the stream containing exactly that block yields exactly
two units: the first segment with `.tpl` rewritten to `_part1.tpl` plus a
semicolon, and the first line of the FIRST SEGMENT with `.tpl` rewritten to
`_part2.tpl`, joined by a newline to the second segment plus a semicolon;
both marker-prefixed. -/
theorem c3_split_block_units (s pre q seg0 seg1 : Str) (rest : List Str)
    (hb : splitSep (lit "-- start") s = [pre, q])
    (hs : splitSep (lit ";") q = seg0 :: seg1 :: rest)
    (hc : containsSub seg1 (lit "select") = true) :
    gen_sql_from_stream s =
      some [lit "-- start" ++ (replaceSub seg0 (lit ".tpl") (lit "_part1.tpl") ++ lit ";"),
            lit "-- start" ++ (replaceSub (firstLine seg0) (lit ".tpl") (lit "_part2.tpl")
              ++ lit "\n" ++ seg1 ++ lit ";")] := by
  unfold gen_sql_from_stream
  rw [hb]
  simp only [List.tail_cons]
  simp only [processBlocks, processBlock_eq_of_split hs, if_pos hc]
  rfl

/-- C3 witness: the amended statement instantiated on the concrete block of
the spec's own scenario. -/
theorem c3_split_block_units_witness :
    gen_sql_from_stream
        (lit "-- start query 1 in stream 0 using template query14.tpl\nselect a from t1;\nselect b from t1;\n-- end") =
      some [lit "-- start"
              ++ (replaceSub (lit " query 1 in stream 0 using template query14.tpl\nselect a from t1")
                    (lit ".tpl") (lit "_part1.tpl") ++ lit ";"),
            lit "-- start"
              ++ (replaceSub (firstLine (lit " query 1 in stream 0 using template query14.tpl\nselect a from t1"))
                    (lit ".tpl") (lit "_part2.tpl")
                  ++ lit "\n" ++ lit "\nselect b from t1" ++ lit ";")] :=
  c3_split_block_units _ (lit "")
    (lit " query 1 in stream 0 using template query14.tpl\nselect a from t1;\nselect b from t1;\n-- end")
    (lit " query 1 in stream 0 using template query14.tpl\nselect a from t1")
    (lit "\nselect b from t1") [lit "\n-- end"]
    (by decide) (by decide) (by decide)

/-- C4: a block whose second semicolon-delimited segment does not contain
`select` is emitted as exactly one unit, unchanged apart from re-attaching
the start marker. -/
theorem c4_unsplit_block (s pre q seg0 seg1 : Str) (rest : List Str)
    (hb : splitSep (lit "-- start") s = [pre, q])
    (hs : splitSep (lit ";") q = seg0 :: seg1 :: rest)
    (hc : containsSub seg1 (lit "select") = false) :
    processBlock q = some [q] ∧
    gen_sql_from_stream s = some [lit "-- start" ++ q] := by
  have hpb : processBlock q = some [q] := by
    rw [processBlock_eq_of_split hs, if_neg (by simp [hc])]
  refine ⟨hpb, ?_⟩
  unfold gen_sql_from_stream
  rw [hb]
  simp only [List.tail_cons]
  simp only [processBlocks, hpb]
  rfl

/-- C4 witness: the spec's scenario, one `query55.tpl` block whose only
statement is a single select. -/
theorem c4_unsplit_block_witness :
    processBlock (lit " query 5 in stream 0 using template query55.tpl\nselect x from t;\n-- end")
        = some [lit " query 5 in stream 0 using template query55.tpl\nselect x from t;\n-- end"] ∧
    gen_sql_from_stream (lit "-- start query 5 in stream 0 using template query55.tpl\nselect x from t;\n-- end")
        = some [lit "-- start query 5 in stream 0 using template query55.tpl\nselect x from t;\n-- end"] :=
  c4_unsplit_block _ (lit "")
    (lit " query 5 in stream 0 using template query55.tpl\nselect x from t;\n-- end")
    (lit " query 5 in stream 0 using template query55.tpl\nselect x from t")
    (lit "\n-- end") []
    (by decide) (by decide) (by decide)

/-- C7: when the start marker never occurs in the input text,
`gen_sql_from_stream` succeeds with an empty unit sequence. -/
theorem c7_missing_marker_empty (s : Str)
    (h : containsSub s (lit "-- start") = false) :
    gen_sql_from_stream s = some [] := by
  have hn : findSub (lit "-- start") s = none := findSub_none_of_not_contains h
  unfold gen_sql_from_stream
  rw [splitSep_of_none hn]
  rfl

/-- C7 witness: a marker-free text yields the empty unit sequence. -/
theorem c7_missing_marker_empty_witness :
    gen_sql_from_stream (lit "select 1 from t;\n-- end query") = some [] :=
  c7_missing_marker_empty _ (by decide)

/-- C9: the splitter unconditionally indexes the second semicolon segment of
every block, so it succeeds whenever every block contains a semicolon, and on
an input whose block has no semicolon it fails (the modelled `IndexError`,
`none`) instead of returning a unit sequence. -/
theorem c9_semicolon_indexing :
    (∀ s : Str,
      (∀ b ∈ (splitSep (lit "-- start") s).tail, containsSub b (lit ";") = true) →
      ∃ out, gen_sql_from_stream s = some out) ∧
    gen_sql_from_stream (lit "-- start query one with no semicolon") = none := by
  constructor
  · intro s hall
    obtain ⟨ex, hex⟩ := processBlocks_isSome hall
    refine ⟨ex.map (fun q => lit "-- start" ++ q), ?_⟩
    unfold gen_sql_from_stream
    rw [hex]
  · decide

/-- C9 witness: the in-bounds half instantiated on a concrete stream whose
single block contains semicolons. -/
theorem c9_semicolon_indexing_witness :
    ∃ out, gen_sql_from_stream (lit "-- start q1.tpl\nselect a;\n-- end") = some out :=
  c9_semicolon_indexing.1 _ (by decide)

/-- C10 counterexample: the claim locates the name after the first occurrence
of `'template '` (with space), but the source offsets from the first
occurrence of `'template'` without the space.  On
`"templates template q5.tpl"` the claim's premises hold and give `"q5"`,
while the source extracts `" template q5"`. -/
theorem c10_cex :
    c10ClaimedName (lit "templates template q5.tpl") = some (lit "q5") ∧
    query_name (lit "templates template q5.tpl") = lit " template q5" ∧
    (lit " template q5" : Str) ≠ lit "q5" :=
  ⟨by decide, by decide, by decide⟩

/-- C10 (amended): the extracted display name starts 9 characters past the
start of the first occurrence of `'template'` (when the first `'.tpl'` starts
no earlier than that point) and ends at the first occurrence of `'.tpl'`;
when the first `'template'` is immediately followed by a space this is the
text strictly between that `'template '` and the first `'.tpl'`.  For a unit
lacking `'template'` the extraction does not fail: it slices from the fixed
offset 8. -/
theorem c10_name_extraction :
    (∀ (q : Str) (i j : Nat),
      findSub (lit "template") q = some i →
      findSub (lit ".tpl") q = some j →
      i + 9 ≤ j →
      query_name q = (q.take j).drop (i + 9)) ∧
    (∀ q : Str, containsSub q (lit "template") = false →
      query_name q = pySlice q 8 (pyFind q (lit ".tpl"))) := by
  constructor
  · intro q i j hi hj hij
    have hlen4 : (lit ".tpl").length = 4 := by decide
    have hb := findSub_bound hj
    rw [hlen4] at hb
    simp only [query_name, pyFind, hi, hj]
    simp only [pySlice]
    have ha2 : ¬ ((i : ℤ) + 9 < 0) := by omega
    have hb2 : ¬ ((j : ℤ) < 0) := by omega
    rw [if_neg ha2, if_neg hb2]
    have e1 : (min ((i : ℤ) + 9) ((q.length : ℤ))).toNat = i + 9 := by omega
    have e2 : (min ((j : ℤ)) ((q.length : ℤ))).toNat = j := by omega
    rw [e1, e2]
  · intro q h
    have hn : findSub (lit "template") q = none := findSub_none_of_not_contains h
    simp only [query_name, pyFind, hn]
    norm_num

/-- C10 witness: both halves of the amended statement, on the source's own
example comment line and on a marker-free unit. -/
theorem c10_name_extraction_witness :
    query_name (lit "-- start query 32 in stream 0 using template query98.tpl")
      = (((lit "-- start query 32 in stream 0 using template query98.tpl").take 52).drop 45) ∧
    query_name (lit "no marker here")
      = pySlice (lit "no marker here") 8 (pyFind (lit "no marker here") (lit ".tpl")) :=
  ⟨c10_name_extraction.1 (lit "-- start query 32 in stream 0 using template query98.tpl")
      36 52 (by decide) (by decide) (by decide),
   c10_name_extraction.2 (lit "no marker here") (by decide)⟩

/-- C1: a failure while registering any table (all earlier registrations
having succeeded), or while analysing/executing/writing any query (all
earlier steps having succeeded), aborts the whole run with exactly that error
propagated unmodified, and the timing-log write — the very last step, modelled
by the `Except.ok` payload — is not performed. -/
theorem c1_abort_without_log (env : Env) (tables : List Str) (p : Str)
    (qs : List Str) (log : Str) (op : Option Str) (fmt : Str) (e : String)
    (h : (∃ ts1 t ts2, tables = ts1 ++ t :: ts2 ∧ registersOk env p ts1 ∧
            env.register (p ++ lit "/" ++ t) t = Except.error e) ∨
         (registersOk env p tables ∧
          ∃ qs1 q qs2, qs = qs1 ++ q :: qs2 ∧ (∀ x ∈ qs1, queryOk env op fmt x) ∧
            queryFails env op fmt q e)) :
    run_query_stream env tables p qs log op fmt = Except.error e ∧
    writePerformed (run_query_stream env tables p qs log op fmt) = false := by
  have hrun : run_query_stream env tables p qs log op fmt = Except.error e := by
    rcases h with ⟨ts1, t, ts2, rfl, hok, herr⟩ | ⟨hok, qs1, q, qs2, rfl, hq1, hfail⟩
    · unfold run_query_stream
      rw [registerTables_error ts1 t ts2 2 e hok herr]
    · obtain ⟨es1, k1, h1, hk1, hlen1, hmap1, hmem1⟩ := registerTables_ok tables 2 hok
      unfold run_query_stream
      rw [h1]
      dsimp only
      rw [runQueries_error qs1 q qs2 (k1 + 2) e hq1 hfail]
  exact ⟨hrun, by rw [hrun]; rfl⟩

/-- C1 witness: the spec's scenario — the second query unit's analysis raises
an engine error; the run aborts with it and no write happens. -/
theorem c1_abort_without_log_witness :
    run_query_stream envSqlBoom [lit "t1"] (lit "p") [lit "q1", lit "q2"]
        (lit "log") none (lit "parquet") = Except.error "boom" ∧
    writePerformed (run_query_stream envSqlBoom [lit "t1"] (lit "p")
        [lit "q1", lit "q2"] (lit "log") none (lit "parquet")) = false :=
  c1_abort_without_log envSqlBoom [lit "t1"] (lit "p") [lit "q1", lit "q2"]
    (lit "log") none (lit "parquet") "boom"
    (Or.inr ⟨by decide, [lit "q1"], lit "q2", [], rfl, by decide,
      Or.inl (by decide)⟩)

/-- C5: a run in which every step succeeds performs the log write with
`(number of tables) + 1 + (number of query units) + 2` entries, labelled, in
order: one `CreateTempView <table>` per table, `Load Time`, one extracted
query name per unit, `Power Test Time`, `Total Time`. -/
theorem c5_timing_record_shape (env : Env) (tables : List Str) (p : Str)
    (qs : List Str) (log : Str) (op : Option Str) (fmt : Str)
    (hreg : registersOk env p tables) (hq : ∀ q ∈ qs, queryOk env op fmt q) :
    ∃ w, run_query_stream env tables p qs log op fmt = Except.ok w ∧
      w.entries.length = tables.length + 1 + qs.length + 2 ∧
      w.entries.map (fun r => r.2.1)
        = tables.map (fun t => lit "CreateTempView " ++ t)
          ++ [lit "Load Time"] ++ qs.map query_name
          ++ [lit "Power Test Time", lit "Total Time"] := by
  obtain ⟨es1, k1, h1, hk1, hlen1, hmap1, hmem1⟩ := registerTables_ok tables 2 hreg
  obtain ⟨es2, k2, h2, hk2, hlen2, hmap2, hmem2⟩ := runQueries_ok qs (k1 + 2) hq
  refine ⟨⟨log, [lit "application_id", lit "query", lit "time/s"],
      es1 ++ [(env.appId, lit "Load Time", env.clock k1 - env.clock 1)]
        ++ es2 ++ [(env.appId, lit "Power Test Time", env.clock k2 - env.clock (k1 + 1)),
                   (env.appId, lit "Total Time", env.clock k2 - env.clock 0)]⟩,
      ?_, ?_, ?_⟩
  · unfold run_query_stream
    rw [h1]
    dsimp only
    rw [h2]
  · simp only [List.length_append, List.length_cons, List.length_nil,
      hlen1, hlen2]
  · simp only [List.map_append, List.map_cons, List.map_nil, hmap1, hmap2]

/-- C5 witness: a concrete fully successful run with one table and one query. -/
theorem c5_timing_record_shape_witness :
    ∃ w, run_query_stream envTick [lit "t1"] (lit "p") [lit "q1"]
        (lit "log") none (lit "parquet") = Except.ok w ∧
      w.entries.length = [lit "t1"].length + 1 + [lit "q1"].length + 2 ∧
      w.entries.map (fun r => r.2.1)
        = [lit "t1"].map (fun t => lit "CreateTempView " ++ t)
          ++ [lit "Load Time"] ++ [lit "q1"].map query_name
          ++ [lit "Power Test Time", lit "Total Time"] :=
  c5_timing_record_shape envTick [lit "t1"] (lit "p") [lit "q1"]
    (lit "log") none (lit "parquet") (by decide) (by decide)

/-- C8: in a fully successful run under a clock that never runs backwards,
every written entry carries the application id captured once at session
creation, and every recorded elapsed value is non-negative. -/
theorem c8_app_id_and_nonneg (env : Env) (tables : List Str) (p : Str)
    (qs : List Str) (log : Str) (op : Option Str) (fmt : Str)
    (hm : clockMono env)
    (hreg : registersOk env p tables) (hq : ∀ q ∈ qs, queryOk env op fmt q) :
    ∃ w, run_query_stream env tables p qs log op fmt = Except.ok w ∧
      ∀ r ∈ w.entries, r.1 = env.appId ∧ 0 ≤ r.2.2 := by
  have hmon : Monotone env.clock := monotone_nat_of_le_succ hm
  obtain ⟨es1, k1, h1, hk1, hlen1, hmap1, hmem1⟩ := registerTables_ok tables 2 hreg
  obtain ⟨es2, k2, h2, hk2, hlen2, hmap2, hmem2⟩ := runQueries_ok qs (k1 + 2) hq
  refine ⟨⟨log, [lit "application_id", lit "query", lit "time/s"],
      es1 ++ [(env.appId, lit "Load Time", env.clock k1 - env.clock 1)]
        ++ es2 ++ [(env.appId, lit "Power Test Time", env.clock k2 - env.clock (k1 + 1)),
                   (env.appId, lit "Total Time", env.clock k2 - env.clock 0)]⟩,
      ?_, ?_⟩
  · unfold run_query_stream
    rw [h1]
    dsimp only
    rw [h2]
  · intro r hr
    simp only [List.mem_append, List.mem_cons, List.mem_singleton,
      List.not_mem_nil, or_false] at hr
    rcases hr with ((hr1 | hr0) | hr2) | hrp | hrt
    · obtain ⟨happ, m, hdiff⟩ := hmem1 r hr1
      refine ⟨happ, ?_⟩
      rw [hdiff]
      exact sub_nonneg.mpr (hm m)
    · subst hr0
      refine ⟨rfl, sub_nonneg.mpr (hmon (by omega))⟩
    · obtain ⟨happ, m, hdiff⟩ := hmem2 r hr2
      refine ⟨happ, ?_⟩
      rw [hdiff]
      exact sub_nonneg.mpr (hm m)
    · subst hrp
      refine ⟨rfl, sub_nonneg.mpr (hmon (by omega))⟩
    · subst hrt
      refine ⟨rfl, sub_nonneg.mpr (hmon (by omega))⟩

/-- C8 witness: the id/non-negativity conclusion on a concrete run with two
tables and two queries under the unit-step clock. -/
theorem c8_app_id_and_nonneg_witness :
    ∃ w, run_query_stream envTick [lit "t1", lit "t2"] (lit "p")
        [lit "q1", lit "q2"] (lit "log") none (lit "parquet") = Except.ok w ∧
      ∀ r ∈ w.entries, r.1 = envTick.appId ∧ 0 ≤ r.2.2 :=
  c8_app_id_and_nonneg envTick [lit "t1", lit "t2"] (lit "p")
    [lit "q1", lit "q2"] (lit "log") none (lit "parquet")
    (fun n => by simp only [envTick]; omega) (by decide) (by decide)

/-- C6 counterexample: with the unit-step clock and one query, the single
query entry records elapsed 1 (so the per-query sum is 1), while the `Power
Test Time` entry records 3 — the power figure is the wall time across the
whole loop (including the untimed `sql` preparation before each timed
section), not the sum of the per-query elapsed values. -/
theorem c6_cex :
    run_query_stream envTick [] (lit "p") [lit "q"] (lit "log") none (lit "parquet")
      = Except.ok ⟨lit "log", [lit "application_id", lit "query", lit "time/s"],
          [(lit "app-1", lit "Load Time", 1), (lit "app-1", [], 1),
           (lit "app-1", lit "Power Test Time", 3), (lit "app-1", lit "Total Time", 6)]⟩ ∧
    (3 : ℤ) ≠ List.sum [(1 : ℤ)] :=
  ⟨by decide, by decide⟩

/-- C6 (amended): under a clock that never runs backwards, the `Power Test
Time` value of a successful run is at least — not in general equal to — the
sum of the per-query elapsed values in the same record. -/
theorem c6_power_time_bounds (env : Env) (tables : List Str) (p : Str)
    (qs : List Str) (log : Str) (op : Option Str) (fmt : Str)
    (hm : clockMono env)
    (hreg : registersOk env p tables) (hq : ∀ q ∈ qs, queryOk env op fmt q) :
    ∃ w tEs qEs loadv pv tv,
      run_query_stream env tables p qs log op fmt = Except.ok w ∧
      w.entries = tEs ++ [(env.appId, lit "Load Time", loadv)] ++ qEs
        ++ [(env.appId, lit "Power Test Time", pv), (env.appId, lit "Total Time", tv)] ∧
      (qEs.map (fun r => r.2.2)).sum ≤ pv := by
  obtain ⟨es1, k1, h1, hk1, hlen1, hmap1, hmem1⟩ := registerTables_ok tables 2 hreg
  obtain ⟨es2, k2, h2, hk2, hlen2, hmap2, hmem2⟩ := runQueries_ok qs (k1 + 2) hq
  refine ⟨⟨log, [lit "application_id", lit "query", lit "time/s"],
      es1 ++ [(env.appId, lit "Load Time", env.clock k1 - env.clock 1)]
        ++ es2 ++ [(env.appId, lit "Power Test Time", env.clock k2 - env.clock (k1 + 1)),
                   (env.appId, lit "Total Time", env.clock k2 - env.clock 0)]⟩,
      es1, es2, env.clock k1 - env.clock 1, env.clock k2 - env.clock (k1 + 1),
      env.clock k2 - env.clock 0, ?_, rfl, ?_⟩
  · unfold run_query_stream
    rw [h1]
    dsimp only
    rw [h2]
  · have hsum := (runQueries_sum_le hm qs (k1 + 2) es2 k2 h2).1
    have h12 : env.clock (k1 + 1) ≤ env.clock (k1 + 2) := hm (k1 + 1)
    linarith

/-- C6 witness: the amended bound on a concrete run with one table and two
queries under the unit-step clock. -/
theorem c6_power_time_bounds_witness :
    ∃ w tEs qEs loadv pv tv,
      run_query_stream envTick [lit "t1"] (lit "p") [lit "q1", lit "q2"]
        (lit "log") none (lit "parquet") = Except.ok w ∧
      w.entries = tEs ++ [(envTick.appId, lit "Load Time", loadv)] ++ qEs
        ++ [(envTick.appId, lit "Power Test Time", pv),
            (envTick.appId, lit "Total Time", tv)] ∧
      (qEs.map (fun r => r.2.2)).sum ≤ pv :=
  c6_power_time_bounds envTick [lit "t1"] (lit "p") [lit "q1", lit "q2"]
    (lit "log") none (lit "parquet")
    (fun n => by simp only [envTick]; omega) (by decide) (by decide)
